import Mathlib

/-!
Verification of `mp4_converter.py` (MP4 → 1920×1080 batch converter).

The Python source is shallowly embedded below.  Pure string/number
manipulation (the progress parser of `parse_progress`, the command builder
of `convert_video`) is translated directly; code that talks to the outside
world (subprocesses, filesystem) is embedded as functions over an explicit
environment recording, per candidate encoder, the probe outcome, and, per
input file, what the filesystem and the external tools would answer.
External invocations performed by the batch loop are made observable as an
explicit trace of actions.

Numeric conventions: Python `float` arithmetic is modelled over `ℚ` (all the
quantities the claims touch — durations, percentages — are exact at the
claimed inputs); Python `int` is `Int`.
-/

namespace Mp4Converter

/-! ### Python string primitives (over `List Char`) -/

/-- Test that `l` starts with `pat` (Python `str.startswith` on char
lists). -/
def beginsWith : List Char → List Char → Bool
  | [], _ => true
  | _ :: _, [] => false
  | p :: ps, c :: cs => p == c && beginsWith ps cs

/-- Python substring test `pat in l` (`pat` occurs contiguously in `l`). -/
def hasSubL (pat : List Char) : List Char → Bool
  | [] => beginsWith pat []
  | c :: cs => beginsWith pat (c :: cs) || hasSubL pat cs

/-- Python `pat in s` for strings. -/
def hasSub (s pat : String) : Bool := hasSubL pat.toList s.toList

/-- Python `s.split('=')`: split on every occurrence of `'='`, keeping empty
pieces, as `str.split` with an explicit separator does. -/
def splitEq : List Char → List (List Char)
  | [] => [[]]
  | c :: cs =>
    match splitEq cs, c == '=' with
    | r, true => [] :: r
    | [], false => [[c]]
    | h :: t, false => (c :: h) :: t

/-- The whitespace set of Python `str.strip()` (ASCII part). -/
def isPySpace (c : Char) : Bool :=
  c == ' ' || c == '\t' || c == '\n' || c == '\x0d' || c == '\x0b' || c == '\x0c'

/-- Python `s.strip()`. -/
def pyStrip (l : List Char) : List Char :=
  ((l.dropWhile isPySpace).reverse.dropWhile isPySpace).reverse

/-- Digit-run evaluator shared by the `int()`/`float()` models.  Accepts the
remaining characters of a literal whose first digit produced `acc`; Python
permits single underscores between digits. -/
def pyDigitsAux : Nat → List Char → Option Nat
  | acc, [] => some acc
  | _, ['_'] => none
  | acc, '_' :: c :: cs =>
    if c.isDigit then pyDigitsAux (acc * 10 + (c.toNat - 48)) cs else none
  | acc, c :: cs =>
    if c.isDigit then pyDigitsAux (acc * 10 + (c.toNat - 48)) cs else none

/-- A nonempty digit run (first char must be a digit). -/
def pyNat? : List Char → Option Nat
  | [] => none
  | c :: cs => if c.isDigit then pyDigitsAux (c.toNat - 48) cs else none

/-- Python `int(s)` on an already-stripped literal: optional sign then a
nonempty digit run.  (Base prefixes do not occur in the inputs the source
feeds this.) -/
def pyInt? (l : List Char) : Option Int :=
  match l with
  | '-' :: rest => (pyNat? rest).map fun n => -(n : Int)
  | '+' :: rest => (pyNat? rest).map fun n => (n : Int)
  | _ => (pyNat? l).map fun n => (n : Int)

/-- All-digit run evaluated together with its length (for fractional parts). -/
def pyFracAux : Nat → Nat → List Char → Option (Nat × Nat)
  | acc, k, [] => some (acc, k)
  | acc, k, c :: cs =>
    if c.isDigit then pyFracAux (acc * 10 + (c.toNat - 48)) (k + 1) cs else none

/-- Magnitude of a Python `float` literal: `digits`, `digits.digits*` or
`.digits+` (exponent, `inf`/`nan` and digit grouping are not produced by the
ffmpeg output this model parses). -/
def pyFloatMag? (l : List Char) : Option ℚ :=
  let ip := l.takeWhile Char.isDigit
  let rest := l.dropWhile Char.isDigit
  match rest with
  | [] => if ip.isEmpty then none else some ((ip.foldl (fun a c => a * 10 + (c.toNat - 48)) 0 : Nat) : ℚ)
  | '.' :: frac =>
    if ip.isEmpty && frac.isEmpty then none
    else
      match pyFracAux 0 0 frac with
      | none => none
      | some (fv, fk) =>
        some (((ip.foldl (fun a c => a * 10 + (c.toNat - 48)) 0 : Nat) : ℚ) + (fv : ℚ) / (10 : ℚ) ^ fk)
  | _ => none

/-- Python `float(s)` on an already-stripped literal. -/
def pyFloat? (l : List Char) : Option ℚ :=
  match l with
  | '-' :: rest => (pyFloatMag? rest).map Neg.neg
  | '+' :: rest => pyFloatMag? rest
  | _ => pyFloatMag? l

/-- Python `s.replace(" fps", "")`: drop every (left-to-right,
non-overlapping) occurrence of `" fps"`. -/
def dropFpsSuffix : List Char → List Char
  | ' ' :: 'f' :: 'p' :: 's' :: rest => dropFpsSuffix rest
  | c :: rest => c :: dropFpsSuffix rest
  | [] => []
termination_by l => l.length

/-! ### `parse_progress` (mp4_converter.py lines 119–139) -/

/-- The numeric field of an `out_time_us=` line: `int(line.split('=')[1].strip())`,
with the `ValueError`/`IndexError` catch modelled by `Option`. -/
def timeFieldVal? (line : String) : Option Int :=
  match (splitEq line.toList)[1]? with
  | none => none
  | some fld => pyInt? (pyStrip fld)

/-- The numeric field of an `fps=` line:
`float(line.split('=')[1].strip().replace(' fps', '').strip())`. -/
def fpsFieldVal? (line : String) : Option ℚ :=
  match (splitEq line.toList)[1]? with
  | none => none
  | some fld => pyFloat? (pyStrip (dropFpsSuffix (pyStrip fld)))

/-- The function `parse_progress(line, duration)` of mp4_converter.py lines 119–139.
Returns the Python pair `(time_info, percentage_or_fps)`; `(none, none)` is
the no-event result of the final `return None, None`. -/
def parse_progress (line : String) (duration : ℚ) : Option ℚ × Option ℚ :=
  if hasSub line "out_time_us=" then
    match timeFieldVal? line with
    | none => (none, none)
    | some time_us =>
      let time_seconds : ℚ := (time_us : ℚ) / 1000000
      if duration > 0 then (some time_seconds, some (time_seconds / duration * 100))
      else (none, none)
  else if hasSub line "fps=" then
    match fpsFieldVal? line with
    | none => (none, none)
    | some fps => (none, some fps)
  else (none, none)

/-! ### `detect_gpu_encoder` (mp4_converter.py lines 35–56)

The capability probe `subprocess.run(..., timeout=5)` is embedded as an
environment function giving each candidate's outcome. -/

/-- Outcome of one capability-probe subprocess: it exited (with some code)
within the timeout, it ran past the timeout (`subprocess.TimeoutExpired`),
or the executable was missing (`FileNotFoundError`). -/
inductive ProbeOutcome where
  | exited (code : Int)
  | timedOut
  | notFound
deriving DecidableEq

/-- The source accepts a candidate exactly when `result.returncode == 0`;
`TimeoutExpired`/`FileNotFoundError` (and the never-raised
`CalledProcessError`) hit the `except` and `continue`. -/
def probeAccepts : ProbeOutcome → Bool
  | .exited code => code == 0
  | _ => false

/-- The ordered candidate list of `detect_gpu_encoder` (identifier, label). -/
def encoders : List (String × String) :=
  [("h264_nvenc", "NVIDIA NVENC"),
   ("h264_amf", "AMD AMF"),
   ("h264_qsv", "Intel QuickSync"),
   ("libx264", "CPU (fallback)")]

/-- The `for encoder, name in encoders` loop: first candidate whose probe
exits 0 wins and ends the loop; every other outcome falls through to the
next candidate. -/
def detectLoop (probe : String → ProbeOutcome) : List (String × String) → Option String
  | [] => none
  | (encoder, _name) :: rest =>
    if probeAccepts (probe encoder) then some encoder else detectLoop probe rest

/-- The loop over an arbitrary candidate list followed by the trailing
`return 'libx264'` fallback. -/
def detectSel (probe : String → ProbeOutcome) (cands : List (String × String)) : String :=
  (detectLoop probe cands).getD "libx264"

/-- The function `detect_gpu_encoder()` of mp4_converter.py lines 35–56, over
the probe environment. -/
def detect_gpu_encoder (probe : String → ProbeOutcome) : String :=
  detectSel probe encoders

/-! ### `convert_video` (mp4_converter.py lines 58–117) -/

/-- The constant the scale/pad filter evaluates to in both branches. -/
def theScalePadFilter : String :=
  "scale=1920:1080:force_original_aspect_ratio=decrease,pad=1920:1080:-1:-1:black"

/-- The aspect-ratio branch of `convert_video` (lines 61–70): compare
`original_width / original_height` with `1920 / 1080` and pick a filter —
both branches carry the same string literal. -/
def scaleFilterOf (original_width original_height : ℕ) : String :=
  let aspect_ratio : ℚ := (original_width : ℚ) / (original_height : ℚ)
  let target_aspect : ℚ := 1920 / 1080
  if aspect_ratio > target_aspect then
    "scale=1920:1080:force_original_aspect_ratio=decrease,pad=1920:1080:-1:-1:black"
  else
    "scale=1920:1080:force_original_aspect_ratio=decrease,pad=1920:1080:-1:-1:black"

/-- Python `cmd.insert(-3, x)`: insert before index `len(cmd) - 3`
(truncated subtraction matches Python's clamp of negative indices at 0). -/
def pyInsertNeg3 (x : String) (cmd : List String) : List String :=
  cmd.take (cmd.length - 3) ++ x :: cmd.drop (cmd.length - 3)

/-- The function `convert_video(input_path, output_path, original_width,
original_height, gpu_encoder)` of mp4_converter.py lines 58–117: the base argument list,
then the encoder-family-specific inserts (each lands just before `-y`),
where the family is decided by substring tests on the encoder identity. -/
def convert_video (input_path output_path : String)
    (original_width original_height : ℕ) (gpu_encoder : String) : List String :=
  let scale_filter := scaleFilterOf original_width original_height
  let cmd : List String :=
    ["ffmpeg", "-i", input_path, "-vf", scale_filter, "-c:v", gpu_encoder,
     "-c:a", "copy", "-y", "-stats", output_path]
  if hasSub gpu_encoder "nvenc" then
    pyInsertNeg3 "23" (pyInsertNeg3 "-cq" (pyInsertNeg3 "vbr" (pyInsertNeg3 "-rc"
      (pyInsertNeg3 "hq" (pyInsertNeg3 "-tune" (pyInsertNeg3 "p1" (pyInsertNeg3 "-preset" cmd)))))))
  else if hasSub gpu_encoder "amf" then
    pyInsertNeg3 "23" (pyInsertNeg3 "-qp_p" (pyInsertNeg3 "23" (pyInsertNeg3 "-qp_i"
      (pyInsertNeg3 "cqp" (pyInsertNeg3 "-rc" (pyInsertNeg3 "transcoding" (pyInsertNeg3 "-usage" cmd)))))))
  else if hasSub gpu_encoder "qsv" then
    pyInsertNeg3 "23" (pyInsertNeg3 "-global_quality" (pyInsertNeg3 "veryfast" (pyInsertNeg3 "-preset" cmd)))
  else
    pyInsertNeg3 "23" (pyInsertNeg3 "-crf" (pyInsertNeg3 "ultrafast" (pyInsertNeg3 "-preset" cmd)))

/-! ### Progress surfacing (mp4_converter.py lines 280–288)

One pass of the supervision loop's per-line handling, common to the Unix
branch and the first part of the Windows branch: the throttled percentage
report and the `current_fps` update. -/

/-- One line-handling step: state is `(last_percentage, current_fps)`; the
third component is the percentage surfaced by the `print`, `none` when the
throttle suppresses output.  The `(some _, none)` shape cannot be produced
by `parse_progress`; it is mapped to the no-op. -/
def superviseStep (duration last_percentage current_fps : ℚ) (line : String) :
    ℚ × ℚ × Option ℚ :=
  match parse_progress line duration with
  | (some _time_info, some percentage) =>
    if percentage > last_percentage + 1 then (percentage, current_fps, some percentage)
    else (last_percentage, current_fps, none)
  | (some _time_info, none) => (last_percentage, current_fps, none)
  | (none, some fps) => (last_percentage, fps, none)
  | (none, none) => (last_percentage, current_fps, none)

/-! ### Discovery (mp4_converter.py lines 153–161)

`glob.glob` and `os.path.normcase` are embedded over a directory listing
(a list of file names) plus a flag saying whether the filesystem — hence
`normcase` and glob matching — is case-insensitive (Windows) or
case-sensitive (POSIX). -/

/-- Test that `l` ends with `suf`. -/
def finishesWith (suf l : List Char) : Bool := beginsWith suf.reverse l.reverse

/-- Python `os.path.normcase`: lowercases (ASCII, all the names the claims use)
on a case-insensitive (Windows) filesystem, identity on a case-sensitive
one. -/
def normcase (ci : Bool) (s : String) : String :=
  if ci then String.mk (s.toList.map Char.toLower) else s

/-- Glob matching for the `*suffix` patterns the source uses (`*.mp4`,
`*.MP4`): the name must not be a dotfile (glob hides those) and must end
with the pattern's suffix, compared case-insensitively exactly when the
filesystem is. -/
def fnMatch (ci : Bool) (pat name : String) : Bool :=
  !(beginsWith ['.'] name.toList) &&
    finishesWith (normcase ci (String.mk (pat.toList.drop 1))).toList (normcase ci name).toList

/-- Python `glob.glob(os.path.join(input_directory, pattern))` over the listing
(paths abstracted to names; the directory prefix is common to all). -/
def globPat (ci : Bool) (pat : String) (listing : List String) : List String :=
  listing.filter (fun name => fnMatch ci pat name)

/-- The body of the dedup loop: append `file` unless some earlier entry has
the same `normcase`. -/
def addUnique (ci : Bool) (acc : List String) (file : String) : List String :=
  if acc.any (fun existing => normcase ci existing == normcase ci file) then acc
  else acc ++ [file]

/-- Lines 153–161: glob `*.mp4` then `*.MP4`, accumulating into `mp4_files`
with the normcase-dedup check. -/
def discoverMp4s (ci : Bool) (listing : List String) : List String :=
  (globPat ci "*.mp4" listing ++ globPat ci "*.MP4" listing).foldl (addUnique ci) []

/-- Modelled from the spec (§6 CLI surface): "discovers all case-insensitive
`*.mp4` matches" — a name matches `*.mp4` case-insensitively when its
lowercasing ends in ".mp4".  Used only to compare the spec's discovery
predicate against the source's `discoverMp4s`. -/
def specCiMp4Match (name : String) : Bool :=
  finishesWith ".mp4".toList (name.toList.map Char.toLower)

/-! ### Batch loop (mp4_converter.py lines 171–314)

Per-file externals are an environment: whether the computed output path
already exists, what `get_video_info` answers, and how the encode
subprocess ends.  External invocations are recorded in a trace. -/

/-- How one encode subprocess run ends: the process terminates with an
exit code, the supervision is hit by `KeyboardInterrupt`, or some other
exception escapes into the generic `except Exception` handler. -/
inductive EncodeResult where
  | exits (code : Int)
  | raisesInterrupt
  | raisesOther
deriving DecidableEq

/-- The externally observable answers for one input file. `probe` is
`get_video_info`'s result: `none` when width or height could not be found
(the `(None, None, 0)` returns), otherwise `(width, height, duration)`. -/
structure FileEnv where
  outputExists : Bool
  probe : Option (ℕ × ℕ × ℚ)
  encodeResult : EncodeResult

/-- External invocations made on behalf of one file. -/
inductive Action where
  | probeCall (file : String)
  | encodeCall (file : String)
  | terminateCall (file : String)
deriving DecidableEq

/-- Terminal classification of one job, mirroring the per-file outcomes of
the loop body (lines 171–311): the three `continue` skips, the exit-code
classification at lines 293–297, the `except Exception` case, and the
`KeyboardInterrupt` case that breaks the loop. -/
inductive Outcome where
  | skippedExists
  | skippedProbeFailed
  | skippedAlreadyTarget
  | succeeded
  | failed (code : Int)
  | errored
  | interrupted
deriving DecidableEq

/-- The loop body for one file (lines 171–311): the `os.path.exists` guard,
then `get_video_info` with its `None` check, then the exact `1920×1080`
skip, then the supervised encode. -/
def processOneFile (env : FileEnv) (file : String) : Outcome × List Action :=
  if env.outputExists then (.skippedExists, [])
  else
    match env.probe with
    | none => (.skippedProbeFailed, [.probeCall file])
    | some (width, height, _duration) =>
      if width = 1920 ∧ height = 1080 then (.skippedAlreadyTarget, [.probeCall file])
      else
        match env.encodeResult with
        | .exits code =>
          if code = 0 then (.succeeded, [.probeCall file, .encodeCall file])
          else (.failed code, [.probeCall file, .encodeCall file])
        | .raisesInterrupt =>
          (.interrupted, [.probeCall file, .encodeCall file, .terminateCall file])
        | .raisesOther => (.errored, [.probeCall file, .encodeCall file])

/-- The `for i, input_file in enumerate(mp4_files, 1)` loop: process files
in order; a `KeyboardInterrupt` outcome executes `break`, so nothing after
it is touched.  Returns the outcome list and the concatenated trace. -/
def convertLoop (envs : String → FileEnv) : List String → List Outcome × List Action
  | [] => ([], [])
  | file :: rest =>
    let r := processOneFile (envs file) file
    if r.1 = .interrupted then ([r.1], r.2)
    else (r.1 :: (convertLoop envs rest).1, r.2 ++ (convertLoop envs rest).2)

/-- The `__main__` startup check (lines 316–334): `ffmpeg -version` and
`ffprobe -version` with `check=True`; on `CalledProcessError` or
`FileNotFoundError` the process does `exit(1)` before any work; otherwise
`convert_all_mp4s` runs and the process ends with status 0.  Returns the
exit status and the outcomes of the batch that ran. -/
def mainRun (ffmpegOk ffprobeOk : Bool) (envs : String → FileEnv)
    (files : List String) : Int × List Outcome :=
  if ffmpegOk && ffprobeOk then (0, (convertLoop envs files).1)
  else (1, [])

/-! ### Concrete environments used to instantiate the theorems -/

/-- A probe environment where the first two candidates time out and the
third (`h264_qsv`) succeeds. -/
def probeThirdOk : String → ProbeOutcome :=
  fun encoder => if encoder = "h264_qsv" then .exited 0 else .timedOut

/-- A file whose output artifact already exists. -/
def envExists : FileEnv := { outputExists := true, probe := some (100, 100, 10), encodeResult := .exits 0 }

/-- A file probed at exactly 1920×1080. -/
def envTarget : FileEnv := { outputExists := false, probe := some (1920, 1080, 5), encodeResult := .exits 0 }

/-- A file whose metadata probe fails. -/
def envProbeFail : FileEnv := { outputExists := false, probe := none, encodeResult := .exits 1 }

/-- A batch where file "a" encodes fine and every other file is hit by a
user interrupt during its encode. -/
def envsInterruptAfterA : String → FileEnv :=
  fun file =>
    if file = "a" then { outputExists := false, probe := some (1280, 720, 10), encodeResult := .exits 0 }
    else { outputExists := false, probe := some (1280, 720, 10), encodeResult := .raisesInterrupt }

/-! ## Helper lemmas -/

/-- Both branches of the aspect-ratio comparison carry the same literal, so
the filter is that constant for every pair of source dimensions. -/
theorem scaleFilterOf_const (w h : ℕ) : scaleFilterOf w h = theScalePadFilter :=
  ite_self _

/-- Unfolding `parse_progress` on a line that carries the
`out_time_us=` marker with a parsable field. -/
theorem parse_progress_time_eq (line : String) (v : Int) (d : ℚ)
    (h1 : hasSub line "out_time_us=" = true) (h2 : timeFieldVal? line = some v) :
    parse_progress line d =
      if d > 0 then (some ((v : ℚ) / 1000000), some ((v : ℚ) / 1000000 / d * 100))
      else (none, none) := by
  unfold parse_progress
  rw [h1, h2]
  rfl

/-- A marker line whose numeric field does not parse yields the no-event
result. -/
theorem parse_progress_time_malformed (line : String) (d : ℚ)
    (h1 : hasSub line "out_time_us=" = true) (h2 : timeFieldVal? line = none) :
    parse_progress line d = (none, none) := by
  unfold parse_progress
  rw [h1, h2]
  rfl

/-- An `fps=` line whose numeric field does not parse yields the no-event
result. -/
theorem parse_progress_fps_malformed (line : String) (d : ℚ)
    (h0 : hasSub line "out_time_us=" = false) (h1 : hasSub line "fps=" = true)
    (h2 : fpsFieldVal? line = none) :
    parse_progress line d = (none, none) := by
  unfold parse_progress
  rw [h0, h1, h2]
  rfl

/-- Python's `cmd.insert(-3, x)` on a list ending in three fixed elements
puts `x` right before those three. -/
theorem pyInsertNeg3_eq (x y1 y2 y3 : String) (front : List String) :
    pyInsertNeg3 x (front ++ [y1, y2, y3]) = (front ++ [x]) ++ [y1, y2, y3] := by
  unfold pyInsertNeg3
  have hlen : (front ++ [y1, y2, y3]).length - 3 = front.length := by
    simp [List.length_append]
  rw [hlen, List.take_left, List.drop_left]
  simp

/-- The base argument list of `convert_video`, split before its last three
elements (`-y -stats output_path`), where the inserts land. -/
theorem cmd_split (i f g o : String) :
    ["ffmpeg", "-i", i, "-vf", f, "-c:v", g, "-c:a", "copy", "-y", "-stats", o] =
    ["ffmpeg", "-i", i, "-vf", f, "-c:v", g, "-c:a", "copy"] ++ ["-y", "-stats", o] := rfl

/-- nvenc family: `-preset p1 -tune hq -rc vbr -cq 23`. -/
theorem convert_video_nvenc (i o : String) (w h : ℕ) :
    convert_video i o w h "h264_nvenc" =
      ["ffmpeg", "-i", i, "-vf", theScalePadFilter, "-c:v", "h264_nvenc", "-c:a", "copy",
       "-preset", "p1", "-tune", "hq", "-rc", "vbr", "-cq", "23", "-y", "-stats", o] := by
  simp only [convert_video, scaleFilterOf_const,
    show hasSub "h264_nvenc" "nvenc" = true from by decide, if_true, cmd_split,
    pyInsertNeg3_eq]
  simp

/-- amf family: `-usage transcoding -rc cqp -qp_i 23 -qp_p 23`. -/
theorem convert_video_amf (i o : String) (w h : ℕ) :
    convert_video i o w h "h264_amf" =
      ["ffmpeg", "-i", i, "-vf", theScalePadFilter, "-c:v", "h264_amf", "-c:a", "copy",
       "-usage", "transcoding", "-rc", "cqp", "-qp_i", "23", "-qp_p", "23", "-y", "-stats", o] := by
  simp only [convert_video, scaleFilterOf_const,
    show hasSub "h264_amf" "nvenc" = false from by decide,
    show hasSub "h264_amf" "amf" = true from by decide,
    Bool.false_eq_true, if_false, if_true, cmd_split, pyInsertNeg3_eq]
  simp

/-- qsv family: `-preset veryfast -global_quality 23`. -/
theorem convert_video_qsv (i o : String) (w h : ℕ) :
    convert_video i o w h "h264_qsv" =
      ["ffmpeg", "-i", i, "-vf", theScalePadFilter, "-c:v", "h264_qsv", "-c:a", "copy",
       "-preset", "veryfast", "-global_quality", "23", "-y", "-stats", o] := by
  simp only [convert_video, scaleFilterOf_const,
    show hasSub "h264_qsv" "nvenc" = false from by decide,
    show hasSub "h264_qsv" "amf" = false from by decide,
    show hasSub "h264_qsv" "qsv" = true from by decide,
    Bool.false_eq_true, if_false, if_true, cmd_split, pyInsertNeg3_eq]
  simp

/-- software fallback: `-preset ultrafast -crf 23`. -/
theorem convert_video_x264 (i o : String) (w h : ℕ) :
    convert_video i o w h "libx264" =
      ["ffmpeg", "-i", i, "-vf", theScalePadFilter, "-c:v", "libx264", "-c:a", "copy",
       "-preset", "ultrafast", "-crf", "23", "-y", "-stats", o] := by
  simp only [convert_video, scaleFilterOf_const,
    show hasSub "libx264" "nvenc" = false from by decide,
    show hasSub "libx264" "amf" = false from by decide,
    show hasSub "libx264" "qsv" = false from by decide,
    Bool.false_eq_true, if_false, cmd_split, pyInsertNeg3_eq]
  simp

/-- If every candidate in the list is rejected the loop falls through. -/
theorem detectLoop_none (probe : String → ProbeOutcome) :
    ∀ cands : List (String × String),
      (∀ p ∈ cands, probeAccepts (probe p.1) = false) → detectLoop probe cands = none := by
  intro cands
  induction cands with
  | nil => intro _; rfl
  | cons p ps ih =>
    intro hall
    obtain ⟨pe, pn⟩ := p
    have hp := hall (pe, pn) (List.mem_cons_self _ _)
    simp only [detectLoop, hp]
    simpa using ih fun q hq => hall q (List.mem_cons_of_mem _ hq)

/-- The loop returns the first accepted candidate: everything before it
rejected, it accepted. -/
theorem detectLoop_first (probe : String → ProbeOutcome) :
    ∀ (pre : List (String × String)) (enc name : String) (post : List (String × String)),
      (∀ p ∈ pre, probeAccepts (probe p.1) = false) →
      probeAccepts (probe enc) = true →
      detectLoop probe (pre ++ (enc, name) :: post) = some enc := by
  intro pre
  induction pre with
  | nil =>
    intro enc name post _ hacc
    simp [detectLoop, hacc]
  | cons p ps ih =>
    intro enc name post hpre hacc
    obtain ⟨pe, pn⟩ := p
    have hp := hpre (pe, pn) (List.mem_cons_self _ _)
    simp only [List.cons_append, detectLoop, hp]
    simpa using ih enc name post (fun q hq => hpre q (List.mem_cons_of_mem _ hq)) hacc

/-- Whatever the loop returns was accepted by its probe. -/
theorem detectLoop_accepts (probe : String → ProbeOutcome) :
    ∀ (cands : List (String × String)) (e : String),
      detectLoop probe cands = some e → probeAccepts (probe e) = true := by
  intro cands
  induction cands with
  | nil => intro e he; exact absurd he (by simp [detectLoop])
  | cons p ps ih =>
    intro e he
    obtain ⟨pe, pn⟩ := p
    simp only [detectLoop] at he
    by_cases hp : probeAccepts (probe pe) = true
    · rw [if_pos hp] at he
      obtain rfl : pe = e := Option.some.inj he
      exact hp
    · rw [if_neg hp] at he
      exact ih e he

/-- A job whose encode is not hit by `KeyboardInterrupt` never classifies as
interrupted. -/
theorem processOneFile_not_interrupt (env : FileEnv) (f : String)
    (h : env.encodeResult ≠ EncodeResult.raisesInterrupt) :
    (processOneFile env f).1 ≠ Outcome.interrupted := by
  unfold processOneFile
  split
  · simp
  · split
    · simp
    · split
      · simp
      · split
        · split <;> simp
        · exact absurd (by assumption) h
        · simp

/-- With no interrupts, the loop classifies every file, in order. -/
theorem convertLoop_no_interrupt (envs : String → FileEnv) :
    ∀ files : List String,
      (∀ f ∈ files, (processOneFile (envs f) f).1 ≠ Outcome.interrupted) →
      (convertLoop envs files).1 = files.map (fun f => (processOneFile (envs f) f).1) := by
  intro files
  induction files with
  | nil => intro _; rfl
  | cons f fs ih =>
    intro hall
    have hf := hall f (List.mem_cons_self _ _)
    simp only [convertLoop, if_neg hf, List.map_cons]
    rw [ih fun g hg => hall g (List.mem_cons_of_mem _ hg)]

/-- Every action in one job's trace names that job's own file. -/
theorem processOneFile_trace_sub (env : FileEnv) (p : String) :
    (processOneFile env p).2 ⊆
      [Action.probeCall p, Action.encodeCall p, Action.terminateCall p] := by
  unfold processOneFile
  split
  · simp
  · split
    · simp
    · split
      · simp
      · split
        · split <;> simp
        · simp
        · simp

/-- A probe or encode action found in a job's trace names that job's file. -/
theorem processOneFile_action_own (env : FileEnv) (p g : String) :
    (Action.probeCall g ∈ (processOneFile env p).2 → g = p) ∧
    (Action.encodeCall g ∈ (processOneFile env p).2 → g = p) := by
  constructor <;> intro hmem <;>
    · have h2 := processOneFile_trace_sub env p hmem
      simpa using h2

/-- A job that reaches the supervised encode and is hit by the interrupt:
terminal state `interrupted`, trace probe → encode → terminate. -/
theorem processOneFile_interrupt_eq (env : FileEnv) (f : String) (w h : ℕ) (d : ℚ)
    (hex : env.outputExists = false) (hpr : env.probe = some (w, h, d))
    (hdim : ¬(w = 1920 ∧ h = 1080)) (hint : env.encodeResult = EncodeResult.raisesInterrupt) :
    processOneFile env f =
      (Outcome.interrupted, [Action.probeCall f, Action.encodeCall f, Action.terminateCall f]) := by
  unfold processOneFile
  rw [hex, hpr, hint]
  simp [hdim]

/-- A `break`-ing interrupt at file `f`: the loop output is the outcomes and
traces of the files before `f` followed by `f`'s own interrupted job, with
the queue after `f` untouched. -/
theorem convertLoop_interrupt (envs : String → FileEnv) (post : List String) (f : String)
    (tr : List Action)
    (hf : processOneFile (envs f) f = (Outcome.interrupted, tr)) :
    ∀ pre : List String,
      (∀ p ∈ pre, (processOneFile (envs p) p).1 ≠ Outcome.interrupted) →
      convertLoop envs (pre ++ f :: post) =
        (pre.map (fun p => (processOneFile (envs p) p).1) ++ [Outcome.interrupted],
         (pre.map (fun p => (processOneFile (envs p) p).2)).flatten ++ tr) := by
  intro pre
  induction pre with
  | nil =>
    intro _
    simp [convertLoop, hf]
  | cons p ps ih =>
    intro hall
    have hp := hall p (List.mem_cons_self _ _)
    simp only [List.cons_append, convertLoop, if_neg hp, List.append_eq]
    rw [ih fun q hq => hall q (List.mem_cons_of_mem _ hq)]
    simp

/-- The dedup step keeps everything already accumulated. -/
theorem addUnique_mono (ci : Bool) (acc : List String) (y x : String) (hx : x ∈ acc) :
    x ∈ addUnique ci acc y := by
  unfold addUnique
  split
  · exact hx
  · exact List.mem_append_left _ hx

/-- The dedup fold keeps everything already accumulated. -/
theorem foldl_addUnique_mono (ci : Bool) :
    ∀ (l acc : List String) (x : String), x ∈ acc → x ∈ l.foldl (addUnique ci) acc := by
  intro l
  induction l with
  | nil => intro acc x hx; exact hx
  | cons y ys ih => intro acc x hx; exact ih _ x (addUnique_mono ci acc y x hx)

/-- The dedup fold invents nothing: every output comes from the accumulator
or the globbed input. -/
theorem foldl_addUnique_sub (ci : Bool) :
    ∀ (l acc : List String) (x : String),
      x ∈ l.foldl (addUnique ci) acc → x ∈ acc ∨ x ∈ l := by
  intro l
  induction l with
  | nil => intro acc x hx; exact Or.inl hx
  | cons y ys ih =>
    intro acc x hx
    rcases ih _ x hx with h | h
    · unfold addUnique at h
      split at h
      · exact Or.inl h
      · rcases List.mem_append.mp h with h | h
        · exact Or.inl h
        · have : x = y := by simpa using h
          exact Or.inr (this ▸ List.mem_cons_self _ _)
    · exact Or.inr (List.mem_cons_of_mem _ h)

/-- Every globbed file keeps a case-normalized representative through the
dedup fold. -/
theorem foldl_addUnique_class (ci : Bool) :
    ∀ (l acc : List String) (x : String), x ∈ l →
      ∃ m ∈ l.foldl (addUnique ci) acc, normcase ci m = normcase ci x := by
  intro l
  induction l with
  | nil => intro acc x hx; cases hx
  | cons y ys ih =>
    intro acc x hx
    rcases List.mem_cons.mp hx with rfl | hx
    · by_cases hdup : acc.any (fun e => normcase ci e == normcase ci x) = true
      · obtain ⟨e, he, heq⟩ := List.any_eq_true.mp hdup
        refine ⟨e, ?_, by simpa using heq⟩
        rw [List.foldl_cons]
        apply foldl_addUnique_mono
        unfold addUnique
        rw [if_pos hdup]
        exact he
      · refine ⟨x, ?_, rfl⟩
        rw [List.foldl_cons]
        apply foldl_addUnique_mono
        unfold addUnique
        rw [if_neg hdup]
        exact List.mem_append_right _ (List.mem_singleton.mpr rfl)
    · rw [List.foldl_cons]
      exact ih _ x hx

/-- The dedup fold preserves pairwise distinctness of case-normalized
paths. -/
theorem foldl_addUnique_pairwise (ci : Bool) :
    ∀ (l acc : List String),
      acc.Pairwise (fun a b => normcase ci a ≠ normcase ci b) →
      (l.foldl (addUnique ci) acc).Pairwise (fun a b => normcase ci a ≠ normcase ci b) := by
  intro l
  induction l with
  | nil => intro acc h; exact h
  | cons y ys ih =>
    intro acc h
    apply ih
    unfold addUnique
    split
    · exact h
    · rename_i hdup
      rw [List.pairwise_append]
      refine ⟨h, List.pairwise_singleton _ _, ?_⟩
      intro a ha b hb
      have hb2 : b = y := by simpa using hb
      subst hb2
      intro hcontra
      exact hdup (List.any_eq_true.mpr ⟨a, ha, by simp [hcontra]⟩)

/-! ## Claims -/

/-- C1: for every ordered candidate list and probe environment, the encoder
selector returns the first candidate whose capability probe exits 0 within
the timeout; whatever the loop returns passed its probe (so a candidate
rejected earlier — timeout, non-zero exit or missing executable — is never
returned); when every candidate is rejected the software fallback
`libx264` is returned; and `detect_gpu_encoder` is this selection applied
to the source's fixed candidate list — total by construction. -/
theorem claim_C1 (probe : String → ProbeOutcome) (cands : List (String × String)) :
    ((∀ p ∈ cands, probeAccepts (probe p.1) = false) → detectSel probe cands = "libx264") ∧
    (∀ (pre : List (String × String)) (enc name : String) (post : List (String × String)),
      cands = pre ++ (enc, name) :: post →
      (∀ p ∈ pre, probeAccepts (probe p.1) = false) →
      probeAccepts (probe enc) = true →
      detectSel probe cands = enc) ∧
    (∀ e : String, detectLoop probe cands = some e → probeAccepts (probe e) = true) ∧
    detect_gpu_encoder probe = detectSel probe encoders := by
  refine ⟨?_, ?_, detectLoop_accepts probe cands, rfl⟩
  · intro hall
    unfold detectSel
    rw [detectLoop_none probe cands hall]
    rfl
  · intro pre enc name post hsplit hpre hacc
    unfold detectSel
    rw [hsplit, detectLoop_first probe pre enc name post hpre hacc]
    rfl

/-- C1 witness: the first two hardware candidates time out and the third
(`h264_qsv`) probes clean, so `detect_gpu_encoder` returns `h264_qsv`. -/
theorem claim_C1_witness : detect_gpu_encoder probeThirdOk = "h264_qsv" :=
  (claim_C1 probeThirdOk encoders).2.1
    [("h264_nvenc", "NVIDIA NVENC"), ("h264_amf", "AMD AMF")]
    "h264_qsv" "Intel QuickSync" [("libx264", "CPU (fallback)")]
    rfl (by decide) (by decide)

/-- C7: the parameter set appended by `convert_video` matches the
per-family table — nvenc gets `-preset p1 -tune hq -rc vbr -cq 23`, amf
gets `-usage transcoding -rc cqp -qp_i 23 -qp_p 23`, qsv gets
`-preset veryfast -global_quality 23`, and the software fallback gets
`-preset ultrafast -crf 23` — each inserted just before `-y`, for every
input/output path and source dimensions. -/
theorem claim_C7 (i o : String) (w h : ℕ) :
    convert_video i o w h "h264_nvenc" =
      ["ffmpeg", "-i", i, "-vf", theScalePadFilter, "-c:v", "h264_nvenc", "-c:a", "copy",
       "-preset", "p1", "-tune", "hq", "-rc", "vbr", "-cq", "23", "-y", "-stats", o] ∧
    convert_video i o w h "h264_amf" =
      ["ffmpeg", "-i", i, "-vf", theScalePadFilter, "-c:v", "h264_amf", "-c:a", "copy",
       "-usage", "transcoding", "-rc", "cqp", "-qp_i", "23", "-qp_p", "23", "-y", "-stats", o] ∧
    convert_video i o w h "h264_qsv" =
      ["ffmpeg", "-i", i, "-vf", theScalePadFilter, "-c:v", "h264_qsv", "-c:a", "copy",
       "-preset", "veryfast", "-global_quality", "23", "-y", "-stats", o] ∧
    convert_video i o w h "libx264" =
      ["ffmpeg", "-i", i, "-vf", theScalePadFilter, "-c:v", "libx264", "-c:a", "copy",
       "-preset", "ultrafast", "-crf", "23", "-y", "-stats", o] :=
  ⟨convert_video_nvenc i o w h, convert_video_amf i o w h,
   convert_video_qsv i o w h, convert_video_x264 i o w h⟩

/-- C3: the three guards run in order — an existing output path skips the
job before any external call (empty trace: no probe, no encode); a probe
answering exactly 1920×1080 yields no encode invocation; and an encode is
launched only when the output did not exist, the probe succeeded, and the
dimensions differ from 1920×1080. -/
theorem claim_C3 (env : FileEnv) (file : String) :
    (env.outputExists = true → processOneFile env file = (Outcome.skippedExists, [])) ∧
    (∀ d : ℚ, env.probe = some (1920, 1080, d) →
      Action.encodeCall file ∉ (processOneFile env file).2) ∧
    (Action.encodeCall file ∈ (processOneFile env file).2 →
      env.outputExists = false ∧
        ∃ w h d, env.probe = some (w, h, d) ∧ ¬(w = 1920 ∧ h = 1080)) := by
  obtain ⟨oe, pr, er⟩ := env
  refine ⟨?_, ?_, ?_⟩
  · intro hoe
    subst hoe
    rfl
  · intro d hpr
    cases oe
    · subst hpr
      simp [processOneFile]
    · simp [processOneFile]
  · intro hmem
    cases oe
    · rcases pr with _ | ⟨w, h, d⟩
      · simp [processOneFile] at hmem
      · by_cases hwh : w = 1920 ∧ h = 1080
        · simp [processOneFile, hwh] at hmem
        · exact ⟨rfl, w, h, d, rfl, hwh⟩
    · simp [processOneFile] at hmem

/-- C3 witness: an existing output skips with an empty trace (no probe); a
1920×1080 probe result yields a trace without an encode call. -/
theorem claim_C3_witness :
    processOneFile envExists "a.mp4" = (Outcome.skippedExists, []) ∧
    Action.encodeCall "b.mp4" ∉ (processOneFile envTarget "b.mp4").2 :=
  ⟨(claim_C3 envExists "a.mp4").1 rfl,
   (claim_C3 envTarget "b.mp4").2.1 5 rfl⟩

/-- C4: when either external tool is missing at startup the process exits 1
before any work; otherwise the exit status is 0 regardless of per-file
outcomes, and (absent a user interrupt) every discovered file is classified
— per-file failures never stop the iteration or reach the exit status. -/
theorem claim_C4 (ffmpegOk ffprobeOk : Bool) (envs : String → FileEnv)
    (files : List String) :
    (¬(ffmpegOk = true ∧ ffprobeOk = true) →
      mainRun ffmpegOk ffprobeOk envs files = (1, [])) ∧
    (ffmpegOk = true → ffprobeOk = true →
      (mainRun ffmpegOk ffprobeOk envs files).1 = 0 ∧
      ((∀ f ∈ files, (envs f).encodeResult ≠ EncodeResult.raisesInterrupt) →
        (mainRun ffmpegOk ffprobeOk envs files).2 =
          files.map (fun f => (processOneFile (envs f) f).1))) := by
  constructor
  · intro hno
    have hb : ¬((ffmpegOk && ffprobeOk) = true) := by
      rw [Bool.and_eq_true]; exact hno
    unfold mainRun
    rw [if_neg hb]
  · intro h1 h2
    subst h1; subst h2
    refine ⟨rfl, ?_⟩
    intro hni
    have h0 : mainRun true true envs files = (0, (convertLoop envs files).1) := rfl
    rw [h0]
    exact convertLoop_no_interrupt envs files
      fun f hf => processOneFile_not_interrupt _ _ (hni f hf)

/-- C4 witness: a missing tool exits 1 with no work; with tools present, a
batch of two files that both fail their probe still ends with status 0 and
both files classified. -/
theorem claim_C4_witness :
    mainRun false true (fun _ => envProbeFail) ["a"] = (1, []) ∧
    (mainRun true true (fun _ => envProbeFail) ["a", "b"]).1 = 0 ∧
    (mainRun true true (fun _ => envProbeFail) ["a", "b"]).2 =
      [Outcome.skippedProbeFailed, Outcome.skippedProbeFailed] := by
  have h1 := (claim_C4 false true (fun _ => envProbeFail) ["a"]).1 (by simp)
  have h2 := (claim_C4 true true (fun _ => envProbeFail) ["a", "b"]).2 rfl rfl
  refine ⟨h1, h2.1, ?_⟩
  rw [h2.2 (by decide)]
  rfl

/-- C9: a user interrupt arriving while file `f`'s encode is supervised
terminates the in-flight subprocess (a terminate action on `f` is in the
trace) and halts the queue: the batch result is exactly the already
completed jobs before `f` plus `f`'s interrupted job, and no file after
`f` is probed or encoded (every probe/encode in the whole trace names a
file before `f`, or `f` itself). -/
theorem claim_C9 (envs : String → FileEnv) (pre post : List String) (f : String)
    (w h : ℕ) (d : ℚ)
    (hpre : ∀ p ∈ pre, (processOneFile (envs p) p).1 ≠ Outcome.interrupted)
    (hex : (envs f).outputExists = false)
    (hpr : (envs f).probe = some (w, h, d))
    (hdim : ¬(w = 1920 ∧ h = 1080))
    (hint : (envs f).encodeResult = EncodeResult.raisesInterrupt) :
    convertLoop envs (pre ++ f :: post) =
      (pre.map (fun p => (processOneFile (envs p) p).1) ++ [Outcome.interrupted],
       (pre.map (fun p => (processOneFile (envs p) p).2)).flatten ++
         [Action.probeCall f, Action.encodeCall f, Action.terminateCall f]) ∧
    Action.terminateCall f ∈ (convertLoop envs (pre ++ f :: post)).2 ∧
    (∀ g : String,
      (Action.probeCall g ∈ (convertLoop envs (pre ++ f :: post)).2 ∨
       Action.encodeCall g ∈ (convertLoop envs (pre ++ f :: post)).2) →
      g ∈ pre ∨ g = f) := by
  have hf := processOneFile_interrupt_eq (envs f) f w h d hex hpr hdim hint
  have hloop := convertLoop_interrupt envs post f
    [Action.probeCall f, Action.encodeCall f, Action.terminateCall f] hf pre hpre
  refine ⟨hloop, ?_, ?_⟩
  · rw [hloop]
    simp
  · intro g hg
    rw [hloop] at hg
    rcases hg with hg | hg
    · rcases List.mem_append.mp hg with hin | hin
      · obtain ⟨s, hs, has⟩ := List.mem_flatten.mp hin
        obtain ⟨p, hp, rfl⟩ := List.mem_map.mp hs
        have hgp : g = p := (processOneFile_action_own (envs p) p g).1 has
        exact Or.inl (hgp ▸ hp)
      · exact Or.inr (by simpa using hin)
    · rcases List.mem_append.mp hg with hin | hin
      · obtain ⟨s, hs, has⟩ := List.mem_flatten.mp hin
        obtain ⟨p, hp, rfl⟩ := List.mem_map.mp hs
        have hgp : g = p := (processOneFile_action_own (envs p) p g).2 has
        exact Or.inl (hgp ▸ hp)
      · exact Or.inr (by simpa using hin)

/-- C9 witness: in a three-file batch where the interrupt hits during the
second file's encode, the first file's completed result is preserved, the
in-flight subprocess is terminated, and the third file is never touched. -/
theorem claim_C9_witness :
    convertLoop envsInterruptAfterA ["a", "b", "c"] =
      ([Outcome.succeeded, Outcome.interrupted],
       [Action.probeCall "a", Action.encodeCall "a",
        Action.probeCall "b", Action.encodeCall "b", Action.terminateCall "b"]) := by
  have h := (claim_C9 envsInterruptAfterA ["a"] ["c"] "b" 1280 720 10
    (by decide) (by decide) (by decide) (by decide) (by decide)).1
  rw [show (["a", "b", "c"] : List String) = ["a"] ++ "b" :: ["c"] from rfl, h]
  rfl

/-- C5 counterexample: `clip.Mp4` matches `*.mp4` case-insensitively (the
spec's discovery predicate), yet on a case-sensitive filesystem the
source's discovery — which globs only `*.mp4` and `*.MP4` — finds
nothing. -/
theorem claim_C5_counterexample :
    specCiMp4Match "clip.Mp4" = true ∧ discoverMp4s false ["clip.Mp4"] = [] := by
  constructor <;> rfl

/-- C5 (amended): discovery returns exactly files from the listing matching
the glob `*.mp4` or `*.MP4` — case-insensitively only when the filesystem
is (so a mixed-case extension like `.Mp4` is missed on a case-sensitive
filesystem) — every matching file keeps a case-normalized representative,
and the result is deduplicated by case-normalized path; concretely,
`Clip.MP4` alone becomes a single job on a case-insensitive filesystem
although both globs return it, while `Clip.MP4` and `clip.mp4` remain two
separate jobs on a case-sensitive one. -/
theorem claim_C5 (ci : Bool) (listing : List String) :
    (∀ n ∈ discoverMp4s ci listing,
      n ∈ listing ∧ (fnMatch ci "*.mp4" n = true ∨ fnMatch ci "*.MP4" n = true)) ∧
    (∀ n ∈ listing, (fnMatch ci "*.mp4" n = true ∨ fnMatch ci "*.MP4" n = true) →
      ∃ m ∈ discoverMp4s ci listing, normcase ci m = normcase ci n) ∧
    (discoverMp4s ci listing).Pairwise (fun a b => normcase ci a ≠ normcase ci b) ∧
    discoverMp4s true ["Clip.MP4"] = ["Clip.MP4"] ∧
    discoverMp4s false ["Clip.MP4", "clip.mp4"] = ["clip.mp4", "Clip.MP4"] := by
  refine ⟨?_, ?_, ?_, rfl, rfl⟩
  · intro n hn
    unfold discoverMp4s at hn
    rcases foldl_addUnique_sub ci _ _ n hn with h | h
    · cases h
    · rcases List.mem_append.mp h with h | h
      · have h2 := List.mem_filter.mp h
        exact ⟨h2.1, Or.inl h2.2⟩
      · have h2 := List.mem_filter.mp h
        exact ⟨h2.1, Or.inr h2.2⟩
  · intro n hn hmatch
    unfold discoverMp4s
    apply foldl_addUnique_class
    rcases hmatch with hm | hm
    · exact List.mem_append_left _ (List.mem_filter.mpr ⟨hn, hm⟩)
    · exact List.mem_append_right _ (List.mem_filter.mpr ⟨hn, hm⟩)
  · unfold discoverMp4s
    exact foldl_addUnique_pairwise ci _ [] List.Pairwise.nil

/-- C5 witness: on a case-sensitive filesystem a lower-case `clip.mp4` is
discovered (up to case normalization, which is the identity there). -/
theorem claim_C5_witness :
    ∃ m ∈ discoverMp4s false ["clip.mp4"], normcase false m = normcase false "clip.mp4" :=
  (claim_C5 false ["clip.mp4"]).2.1 "clip.mp4" (List.mem_singleton.mpr rfl)
    (Or.inl (by decide))

/-- C2: on every line carrying a well-formed elapsed-microseconds marker
(value `v` microseconds) and every total duration `d`, `parse_progress`
reports percent complete exactly `(v / 1000000) / d * 100` when `d > 0`,
and with `d = 0` it returns the no-event result `(none, none)` — no
exception, no NaN, no zero report. -/
theorem claim_C2 (line : String) (v : Int) (d : ℚ)
    (h1 : hasSub line "out_time_us=" = true) (h2 : timeFieldVal? line = some v) :
    (0 < d →
      parse_progress line d =
        (some ((v : ℚ) / 1000000), some ((v : ℚ) / 1000000 / d * 100))) ∧
    (d = 0 → parse_progress line d = (none, none)) := by
  constructor
  · intro hd
    rw [parse_progress_time_eq line v d h1 h2, if_pos hd]
  · intro hd
    rw [parse_progress_time_eq line v d h1 h2, if_neg (by rw [hd]; exact lt_irrefl 0)]

/-- C2 witness: elapsed 30 s (`out_time_us=30000000`) with total duration
120 s yields exactly 25.0; with total duration 0 the no-event result. -/
theorem claim_C2_witness :
    parse_progress "out_time_us=30000000" 120 = (some 30, some 25) ∧
    parse_progress "out_time_us=30000000" 0 = (none, none) := by
  have h := claim_C2 "out_time_us=30000000" 30000000 120 (by decide) (by decide)
  have h0 := claim_C2 "out_time_us=30000000" 30000000 0 (by decide) (by decide)
  have e1 : ((30000000 : Int) : ℚ) / 1000000 = 30 := by norm_num
  refine ⟨?_, h0.2 rfl⟩
  rw [h.1 (by norm_num), e1]
  norm_num

/-- C6: a line whose recognized numeric field (`out_time_us=` or `fps=`
branch) is unparsable yields the no-event result, never an exception, and
repeating the same malformed line any number of times always yields the
same no-event result. -/
theorem claim_C6 (line : String) (d : ℚ) (n : ℕ)
    (h : (hasSub line "out_time_us=" = true ∧ timeFieldVal? line = none) ∨
         (hasSub line "out_time_us=" = false ∧ hasSub line "fps=" = true ∧
           fpsFieldVal? line = none)) :
    (List.replicate n line).map (fun l => parse_progress l d) =
      List.replicate n (none, none) := by
  have hone : parse_progress line d = (none, none) := by
    rcases h with ⟨h1, h2⟩ | ⟨h0, h1, h2⟩
    · exact parse_progress_time_malformed line d h1 h2
    · exact parse_progress_fps_malformed line d h0 h1 h2
  rw [List.map_replicate, hone]

/-- C6 witness: the malformed line `out_time_us=abc` repeated three times
produces three no-event results. -/
theorem claim_C6_witness :
    (List.replicate 3 "out_time_us=abc").map (fun l => parse_progress l 120) =
      List.replicate 3 (none, none) :=
  claim_C6 "out_time_us=abc" 120 3 (Or.inl ⟨by decide, by decide⟩)

/-- C10: the percentage is not clamped — a well-formed elapsed marker with
value `v` and duration `d > 0` yields exactly `(v / 1000000) / d * 100`,
which exceeds 100 whenever the elapsed seconds exceed `d`, and the
supervision-loop step surfaces such a value unchanged whenever it clears
the 1-point throttle. -/
theorem claim_C10 (line : String) (v : Int) (d last_percentage current_fps : ℚ)
    (h1 : hasSub line "out_time_us=" = true) (h2 : timeFieldVal? line = some v)
    (hd : 0 < d) :
    parse_progress line d =
      (some ((v : ℚ) / 1000000), some ((v : ℚ) / 1000000 / d * 100)) ∧
    (d < (v : ℚ) / 1000000 → 100 < (v : ℚ) / 1000000 / d * 100) ∧
    ((v : ℚ) / 1000000 / d * 100 > last_percentage + 1 →
      superviseStep d last_percentage current_fps line =
        ((v : ℚ) / 1000000 / d * 100, current_fps,
          some ((v : ℚ) / 1000000 / d * 100))) := by
  have hparse := (claim_C2 line v d h1 h2).1 hd
  refine ⟨hparse, ?_, ?_⟩
  · intro hover
    have h1lt : 1 < (v : ℚ) / 1000000 / d := (one_lt_div hd).mpr hover
    calc (100 : ℚ) = 1 * 100 := by norm_num
    _ < (v : ℚ) / 1000000 / d * 100 := by
        exact (mul_lt_mul_right (by norm_num)).mpr h1lt
  · intro hthrottle
    unfold superviseStep
    rw [hparse]
    simp only [if_pos hthrottle]

/-- C10 witness: `out_time_us=130000000` (130 s elapsed) against a probed
duration of 120 s yields exactly 325/3 ≈ 108.3 %, above 100, and the
supervision step surfaces it unchanged. -/
theorem claim_C10_witness :
    parse_progress "out_time_us=130000000" 120 = (some 130, some (325 / 3)) ∧
    (100 : ℚ) < 325 / 3 ∧
    superviseStep 120 0 0 "out_time_us=130000000" = (325 / 3, 0, some (325 / 3)) := by
  have h := claim_C10 "out_time_us=130000000" 130000000 120 0 0
    (by decide) (by decide) (by norm_num)
  have e1 : ((130000000 : Int) : ℚ) / 1000000 = 130 := by norm_num
  have e2 : ((130000000 : Int) : ℚ) / 1000000 / 120 * 100 = 325 / 3 := by norm_num
  refine ⟨?_, by norm_num, ?_⟩
  · rw [h.1, e1]
    norm_num
  · have hs := h.2.2 (by rw [e2]; norm_num)
    rw [e2] at hs
    exact hs

/-- C8: for all source dimensions with positive height, the scale+pad
filter string is the single constant
`scale=1920:1080:force_original_aspect_ratio=decrease,pad=1920:1080:-1:-1:black`
— both branches of the aspect-ratio comparison in `convert_video` produce
an identical filter, whether the source is wider or narrower than 16:9. -/
theorem claim_C8 (w h wn hn : ℕ) (hpos : 0 < h) (hposn : 0 < hn) :
    scaleFilterOf w h = theScalePadFilter ∧
    scaleFilterOf w h = scaleFilterOf wn hn := by
  refine ⟨scaleFilterOf_const w h, ?_⟩
  rw [scaleFilterOf_const w h, scaleFilterOf_const wn hn]

/-- C8 witness: a wider-than-16:9 source (3840×1080) and a narrower one
(1080×1920) get the identical constant filter. -/
theorem claim_C8_witness :
    scaleFilterOf 3840 1080 = theScalePadFilter ∧
    scaleFilterOf 3840 1080 = scaleFilterOf 1080 1920 :=
  claim_C8 3840 1080 1080 1920 (by decide) (by decide)

end Mp4Converter
